import Mathlib

/-!
Verification of the voice-expense-tracker core services.

This file gives a shallow embedding, over `List Char`, of the two pure
text-processing modules of the repository:

* `client/lib/categoryService.ts` — keyword-based expense categorization
  (`categorizeExpense`, `getSuggestedCategories`);
* `client/lib/voiceService.ts` — the voice-utterance parser
  (`parseVoiceInput`, `validateParsedExpense`).

JavaScript strings are modelled as `List Char` (the inputs of interest are
ASCII, where JS `toLowerCase`/`trim`/`length` agree with the character-level
model). JS numbers are modelled as `ℚ` (every decision the code makes on the
amounts it parses — positivity, comparison with `10000`, equality with
literals such as `25` or `9999.99` — is exact in double precision, so the
rational model decides them identically). JS regexes are modelled with a
small backtracking matcher whose candidate list reproduces the leftmost-match
and leftmost-alternative/greedy priority order of the JS engine; all
repetition occurring in the source patterns is over single-character classes,
which the `starChr` constructor captures exactly.
-/

namespace VoiceExpense

/-- Character-list strings, the model of JS strings. -/
abbrev Str := List Char

/-- JS `String.prototype.toLowerCase` (ASCII fragment). -/
def strLower (s : Str) : Str := s.map Char.toLower

/-- JS `String.prototype.trim`: drop whitespace from both ends. -/
def trimStr (s : Str) : Str :=
  ((s.dropWhile Char.isWhitespace).reverse.dropWhile Char.isWhitespace).reverse

/-- `leadsWith pat s` iff `pat` occurs at the very start of `s`. -/
def leadsWith : Str → Str → Bool
  | [], _ => true
  | _ :: _, [] => false
  | p :: ps, h :: hs => p = h && leadsWith ps hs

/-- JS `String.prototype.includes`: `pat` occurs somewhere in `hay`. -/
def strIncludes (hay pat : Str) : Bool :=
  match hay with
  | [] => leadsWith pat []
  | _ :: t => leadsWith pat hay || strIncludes t pat

/-!  ### categoryService.ts  -/

/-- The static `categoryKeywords` table, in object-literal (insertion) order,
with every keyword list verbatim from the source. -/
def categoryKeywords : List (String × List String) :=
  [("Food & Dining",
    ["restaurant", "coffee", "lunch", "dinner", "breakfast", "cafe", "starbucks",
     "mcdonalds", "kfc", "pizza", "burger", "food", "eat", "meal", "snack",
     "restaurant", "diner", "bistro", "bakery", "donut", "sandwich", "sushi",
     "chinese", "italian", "mexican", "thai", "indian", "fast food", "takeout"]),
   ("Groceries",
    ["grocery", "groceries", "supermarket", "walmart", "target", "costco",
     "whole foods", "safeway", "kroger", "publix", "trader joes", "market",
     "vegetables", "fruits", "meat", "dairy", "bread", "milk", "eggs",
     "shopping", "food shopping", "weekly shopping"]),
   ("Transportation",
    ["gas", "gasoline", "fuel", "car", "uber", "lyft", "taxi", "train",
     "bus", "subway", "metro", "parking", "toll", "vehicle", "transport",
     "travel", "commute", "flight", "airline", "airport", "rental car",
     "auto", "motorcycle", "bike repair"]),
   ("Entertainment",
    ["movie", "cinema", "theater", "concert", "show", "game", "bowling",
     "amusement", "park", "zoo", "museum", "netflix", "spotify", "music",
     "entertainment", "fun", "leisure", "hobby", "sports", "gym membership",
     "streaming", "subscription", "gaming", "books", "magazine"]),
   ("Shopping",
    ["amazon", "clothes", "clothing", "shoes", "shirt", "pants", "dress",
     "store", "mall", "shopping", "purchase", "buy", "bought", "retail",
     "electronics", "phone", "computer", "laptop", "accessories", "jewelry",
     "cosmetics", "makeup", "perfume", "home goods", "furniture"]),
   ("Utilities",
    ["electric", "electricity", "gas bill", "water", "internet", "phone bill",
     "cable", "utility", "utilities", "bill", "power", "heating", "cooling",
     "trash", "garbage", "recycling", "sewer", "landline", "mobile bill"]),
   ("Healthcare",
    ["doctor", "hospital", "pharmacy", "medicine", "prescription", "medical",
     "health", "dental", "dentist", "clinic", "checkup", "surgery", "therapy",
     "insurance", "copay", "medication", "drugs", "treatment", "appointment",
     "urgent care", "emergency room", "specialist"]),
   ("Other",
    ["miscellaneous", "misc", "other", "various", "random", "unknown"])]

/-- The hand-written priority array inside `categorizeExpense`. -/
def categoryOrder : List String :=
  ["Healthcare", "Transportation", "Groceries", "Food & Dining",
   "Utilities", "Entertainment", "Shopping", "Other"]

/-- One keyword matches: `normalizedDescription.includes(keyword.toLowerCase())`. -/
def keywordMatch (nd : Str) (k : String) : Bool :=
  strIncludes nd (strLower k.data)

/-- The inner keyword loop of `categorizeExpense`: does any keyword of the
category (looked up in the table, defaulting to `[]`) match? -/
def categoryMatches (nd : Str) (cat : String) : Bool :=
  ((categoryKeywords.lookup cat).getD []).any (keywordMatch nd)

/-- Normalization used in `categorizeExpense` and `parseVoiceInput`:
`toLowerCase().trim()`. -/
def normText (s : String) : Str := trimStr (strLower s.data)

/-- `categorizeExpense` from `categoryService.ts`: guard against a falsy
string, normalize, then return the first category in `categoryOrder` any of
whose keywords occurs in the normalized description, defaulting to
`"Other"`. -/
def categorizeExpense (description : String) : String :=
  if description = "" then "Other"
  else
    match categoryOrder.find? (fun cat => categoryMatches (normText description) cat) with
    | some cat => cat
    | none => "Other"

/-!  ### getSuggestedCategories  -/

/-- The score loop of `getSuggestedCategories`: sum of `keyword.length` over
the keywords of one category that occur in the normalized description. -/
def scoreOf (nd : Str) (kws : List String) : ℕ :=
  kws.foldl (fun acc k => if strIncludes nd (strLower k.data) then acc + k.length else acc) 0

/-- The `suggestions` array built by `getSuggestedCategories`: one
`(category, score)` entry per table entry with a strictly positive score, in
table order. -/
def suggestionsFor (nd : Str) : List (String × ℕ) :=
  categoryKeywords.filterMap (fun p =>
    if 0 < scoreOf nd p.2 then some (p.1, scoreOf nd p.2) else none)

/-- Stable descending insertion by score, modelling the stable
`sort((a, b) => b.score - a.score)` of the JS runtime. -/
def insertDesc (x : String × ℕ) : List (String × ℕ) → List (String × ℕ)
  | [] => [x]
  | y :: ys => if y.2 < x.2 then x :: y :: ys else y :: insertDesc x ys

/-- Stable sort by descending score: elements are inserted left to right,
each after the entries with an equal or larger score, reproducing the stable
sort mandated for `Array.prototype.sort`. -/
def sortDesc (l : List (String × ℕ)) : List (String × ℕ) :=
  l.foldl (fun acc x => insertDesc x acc) []

/-- `getSuggestedCategories` from `categoryService.ts`: falsy or
shorter-than-2 input returns all table keys; otherwise score each category,
keep positive scores, sort descending and keep the first three names. -/
def getSuggestedCategories (description : String) : List String :=
  if description = "" ∨ description.length < 2 then categoryKeywords.map Prod.fst
  else ((sortDesc (suggestionsFor (strLower description.data))).take 3).map Prod.fst

/-!  ### voiceService.ts — regex model

Each JS regex used by `voiceService.ts` is a sequence of literals,
alternations, optional groups, end anchor, one capturing group, and
repetition over single-character classes (`\d+`, `\s*`, `\s+`, `\d{2}`).
`mruns` lists the `(remaining-input, capture)` outcomes of matching a regex
at the start of a string, in the JS backtracking priority order: left
alternative before right, greedy repetition longest first. `reSearch` then
scans start positions left to right, which is exactly how an unanchored JS
regex finds its match. -/

/-- Regex fragment: `chr` is a one-character class, `starChr` its greedy
Kleene star, `alt` prefers the left branch, `grp` is the capturing group,
`endA` the `$` anchor. -/
inductive RE where
  | eps : RE
  | chr : (Char → Bool) → RE
  | seq : RE → RE → RE
  | alt : RE → RE → RE
  | starChr : (Char → Bool) → RE
  | grp : RE → RE
  | endA : RE

/-- Remainders of greedily matching `p*`, longest consumption first. -/
def starRems (p : Char → Bool) : Str → List Str
  | [] => [[]]
  | c :: cs => if p c then starRems p cs ++ [c :: cs] else [c :: cs]

/-- All ways a regex matches a prefix of `s`, in backtracking priority
order; each outcome is the remaining input paired with the capture of the
(single) group, if the group participated. -/
def mruns : RE → Str → List (Str × Option Str)
  | .eps, s => [(s, none)]
  | .chr p, s =>
    match s with
    | [] => []
    | c :: cs => if p c then [(cs, none)] else []
  | .seq r₁ r₂, s =>
    (mruns r₁ s).flatMap (fun a => (mruns r₂ a.1).map (fun b => (b.1, b.2 <|> a.2)))
  | .alt r₁ r₂, s => mruns r₁ s ++ mruns r₂ s
  | .starChr p, s => (starRems p s).map (fun r => (r, none))
  | .grp r, s => (mruns r s).map (fun a => (a.1, some (s.take (s.length - a.1.length))))
  | .endA, s =>
    match s with
    | [] => [([], none)]
    | _ :: _ => []

/-- The highest-priority match of `re` at the start of `s`, if any. -/
def headRun (re : RE) (s : Str) : Option (Str × Option Str) := (mruns re s).head?

/-- JS `string.match(re)` for a non-global regex, reduced to the group-1
capture: scan start positions left to right, return the capture of the
first (highest-priority) match. -/
def reSearch (re : RE) : Str → Option (Option Str)
  | [] => (headRun re []).map Prod.snd
  | c :: cs =>
    match headRun re (c :: cs) with
    | some a => some a.2
    | none => reSearch re cs

/-- Fuelled worker for global `string.replace(re, rep)`: at each position
take the match if there is one, emit `rep`, and continue after it (a
zero-width match also advances one character, as in JS). Fuel is the string
length, so the recursion is structural and the function evaluates in the
kernel. -/
def reReplaceAllF (re : RE) (rep : Str) : ℕ → Str → Str
  | 0, _ => []
  | _ + 1, [] => []
  | n + 1, c :: cs =>
    match headRun re (c :: cs) with
    | some a =>
      if a.1.length < cs.length + 1 then rep ++ reReplaceAllF re rep n a.1
      else rep ++ c :: reReplaceAllF re rep n cs
    | none => c :: reReplaceAllF re rep n cs

/-- JS `string.replace(re, rep)` with the `g` flag, for regexes that cannot
match the empty string at the end of the input (true of every pattern the
source uses). -/
def reReplaceAll (re : RE) (rep : Str) (s : Str) : Str := reReplaceAllF re rep s.length s

/-- Case-insensitive literal, modelling a letter sequence under the `i`
flag (ASCII fragment). -/
def litCI (w : String) : RE :=
  w.data.foldr (fun c r => RE.seq (RE.chr (fun x => x.toLower = c.toLower)) r) RE.eps

/-- Ordered alternation of a list of fragments (left to right, as JS `|`). -/
def altList : List RE → RE
  | [] => RE.chr (fun _ => false)
  | [r] => r
  | r :: rs => RE.alt r (altList rs)

/-- Greedy `r?`. -/
def optRE (r : RE) : RE := RE.alt r RE.eps

/-- `\s*`. -/
def ws0 : RE := RE.starChr Char.isWhitespace

/-- `\s+`. -/
def ws1 : RE := RE.seq (RE.chr Char.isWhitespace) ws0

/-- `\d+(?:\.\d{2})?`, the amount shape shared by all four patterns. -/
def reNum : RE :=
  RE.seq (RE.chr Char.isDigit)
    (RE.seq (RE.starChr Char.isDigit)
      (optRE (RE.seq (RE.chr (· = '.'))
        (RE.seq (RE.chr Char.isDigit) (RE.chr Char.isDigit)))))

/-- `dollars?` under the `i` flag. -/
def reDollars : RE := RE.seq (litCI "dollar") (optRE (RE.chr (fun c => c.toLower = 's')))

/-- `bucks?` under the `i` flag. -/
def reBucks : RE := RE.seq (litCI "buck") (optRE (RE.chr (fun c => c.toLower = 's')))

/-- `/(?:spent|paid|cost|was|for)\s*\$?(\d+(?:\.\d{2})?)\s*(?:dollars?|bucks?|$)/i` -/
def amountPattern1 : RE :=
  RE.seq (altList [litCI "spent", litCI "paid", litCI "cost", litCI "was", litCI "for"])
    (RE.seq ws0
      (RE.seq (optRE (RE.chr (· = '$')))
        (RE.seq (RE.grp reNum)
          (RE.seq ws0 (altList [reDollars, reBucks, RE.endA])))))

/-- `/\$(\d+(?:\.\d{2})?)/` -/
def amountPattern2 : RE := RE.seq (RE.chr (· = '$')) (RE.grp reNum)

/-- `/(\d+(?:\.\d{2})?)\s*(?:dollars?|bucks?)/i` -/
def amountPattern3 : RE :=
  RE.seq (RE.grp reNum) (RE.seq ws0 (altList [reDollars, reBucks]))

/-- `/(?:spent|paid|cost|was)\s*(\d+(?:\.\d{2})?)/i` -/
def amountPattern4 : RE :=
  RE.seq (altList [litCI "spent", litCI "paid", litCI "cost", litCI "was"])
    (RE.seq ws0 (RE.grp reNum))

/-- The `amountPatterns` array, in source order. -/
def amountPatterns : List RE := [amountPattern1, amountPattern2, amountPattern3, amountPattern4]

/-- Numeric value of a digit run. -/
def digitsVal (ds : Str) : ℕ := ds.foldl (fun a c => a * 10 + (c.toNat - 48)) 0

/-- `parseFloat` on a capture of shape `\d+(\.\d{2})?`, modelled exactly as
a rational (integer part plus hundredths). -/
def capToRat (cap : Str) : ℚ :=
  match cap.dropWhile (· ≠ '.') with
  | _ :: frac => mkRat (digitsVal (cap.takeWhile (· ≠ '.')) * 100 + digitsVal frac) 100
  | [] => (digitsVal (cap.takeWhile (· ≠ '.')) : ℚ)

/-- One iteration of the amount loop: the pattern's first match, kept only
if its captured value is strictly positive (`!isNaN(parsedAmount) &&
parsedAmount > 0`; the capture shape rules out `NaN`). -/
def posVal (re : RE) (t : Str) : Option ℚ :=
  match reSearch re t with
  | some (some cap) => if 0 < capToRat cap then some (capToRat cap) else none
  | some none => none
  | none => none

/-- The whole amount-extraction loop: first pattern whose first match has a
strictly positive value wins; otherwise no amount. -/
def extractAmount (t : Str) : Option ℚ := amountPatterns.findSome? (fun re => posVal re t)

/-!  ### voiceService.ts — description stripping  -/

/-- `/(?:spent|paid|cost|was|for|i|bought|purchase|purchased)\s*/gi` -/
def stripRE1 : RE :=
  RE.seq (altList [litCI "spent", litCI "paid", litCI "cost", litCI "was", litCI "for",
                   litCI "i", litCI "bought", litCI "purchase", litCI "purchased"]) ws0

/-- `/\$?\d+(?:\.\d{2})?\s*(?:dollars?|bucks?)?/gi` -/
def stripRE2 : RE :=
  RE.seq (optRE (RE.chr (· = '$')))
    (RE.seq reNum (RE.seq ws0 (optRE (altList [reDollars, reBucks]))))

/-- `/(?:on|for)\s*/gi` -/
def stripRE3 : RE := RE.seq (altList [litCI "on", litCI "for"]) ws0

/-- `/(?:this\s+(?:morning|afternoon|evening|night))/gi` -/
def stripRE4 : RE :=
  RE.seq (litCI "this")
    (RE.seq ws1 (altList [litCI "morning", litCI "afternoon", litCI "evening", litCI "night"]))

/-- `/(?:today|yesterday|earlier)/gi` -/
def stripRE5 : RE := altList [litCI "today", litCI "yesterday", litCI "earlier"]

/-- `/^(?:on|for|at)\s+/i`, applied once at the start of the string. -/
def leadRE : RE := RE.seq (altList [litCI "on", litCI "for", litCI "at"]) ws1

/-- Non-global anchored removal for `leadRE`. -/
def stripLead (s : Str) : Str :=
  match headRun leadRE s with
  | some a => a.1
  | none => s

/-- `/\s+/g`, used to collapse whitespace runs to one space. -/
def wsRunRE : RE := RE.seq (RE.chr Char.isWhitespace) ws0

/-- The five global replacements, trim, anchored strip and whitespace
collapse of lines 50–60 of `voiceService.ts`. -/
def stripDescription (text : Str) : Str :=
  let d1 := reReplaceAll stripRE1 [] text
  let d2 := reReplaceAll stripRE2 [] d1
  let d3 := reReplaceAll stripRE3 [] d2
  let d4 := reReplaceAll stripRE4 [] d3
  let d5 := trimStr (reReplaceAll stripRE5 [] d4)
  let d6 := stripLead d5
  trimStr (reReplaceAll wsRunRE [' '] d6)

/-- JS `text.split(' ')` (split at each single space character). -/
def splitOnSpace (s : Str) : List Str :=
  match s with
  | [] => [[]]
  | c :: t =>
    let r := splitOnSpace t
    if c = ' ' then [] :: r
    else
      match r with
      | w :: ws => (c :: w) :: ws
      | [] => [[c]]

/-- JS `words.join(' ')`. -/
def joinSpace : List Str → Str
  | [] => []
  | [w] => w
  | w :: ws => w ++ ' ' :: joinSpace ws

/-- `word.match(/^\$?\d+/)`: the word starts with an optional `$` and at
least one digit. -/
def isNumTok (w : Str) : Bool :=
  match w with
  | [] => false
  | c :: cs =>
    if c = '$' then
      match cs with
      | d :: _ => d.isDigit
      | [] => false
    else c.isDigit

/-- The stopword list of the word-level fallback. -/
def stopwords : List String :=
  ["spent", "paid", "cost", "was", "for", "on", "i", "dollars", "dollar", "bucks", "buck"]

/-- The word-level fallback of lines 63–69: keep the original words that are
neither amount-like tokens nor (case-insensitively) stopwords. -/
def fallbackWords (text : Str) : Str :=
  trimStr (joinSpace ((splitOnSpace text).filter
    (fun w => !isNumTok w && !(stopwords.map (fun t => t.data)).contains (strLower w))))

/-- Lines 62–74: stripped description, word-level fallback if it is shorter
than 2 characters, literal `"Expense"` if still shorter than 2. -/
def descWithFallback (text : Str) : Str :=
  if (stripDescription text).length < 2 then
    if (fallbackWords text).length < 2 then "Expense".data else fallbackWords text
  else stripDescription text

/-- `description.charAt(0).toUpperCase() + description.slice(1)`. -/
def capitalize (s : Str) : Str :=
  match s with
  | [] => []
  | c :: cs => c.toUpper :: cs

/-!  ### voiceService.ts — dates and the parser  -/

/-- A JS `Date` in fixed-offset local time: a day number and the
milliseconds elapsed on that local day. -/
structure JsDate where
  day : ℤ
  msOfDay : ℤ
deriving DecidableEq, Repr

/-- `new Date(Date.now() - 24 * 60 * 60 * 1000)`: exactly 24 hours earlier,
same clock time in the fixed-offset model. -/
def sub24h (d : JsDate) : JsDate := ⟨d.day - 1, d.msOfDay⟩

/-- `date.setHours(h, 0, 0, 0)`: same day, clock set to `h`:00:00.000. -/
def setClock (d : JsDate) (h : ℤ) : JsDate := ⟨d.day, h * 3600000⟩

/-- Lines 80–90: date inference from the normalized text. -/
def inferDate (nt : Str) (now : JsDate) : JsDate :=
  if strIncludes nt "yesterday".data then sub24h now
  else if strIncludes nt "this morning".data then setClock now 9
  else if strIncludes nt "this afternoon".data then setClock now 14
  else if strIncludes nt "this evening".data || strIncludes nt "tonight".data then setClock now 19
  else now

/-- The parser's result record; `date` is optional in the TS interface. -/
structure ParsedExpense where
  amount : ℚ
  description : String
  date : Option JsDate
deriving DecidableEq, Repr

/-- `parseVoiceInput` from `voiceService.ts`, with the captured "now"
made explicit. -/
def parseVoiceInput (text : String) (now : JsDate) : Option ParsedExpense :=
  if text = "" then none
  else
    match extractAmount (normText text) with
    | none => none
    | some amount =>
      some ⟨amount, ⟨capitalize (descWithFallback text.data)⟩,
            some (inferDate (normText text) now)⟩

/-- A JS value as far as the defensive `typeof` guards can observe it. -/
inductive JSVal where
  | str : String → JSVal
  | jsNull : JSVal
  | jsUndef : JSVal
  | num : ℚ → JSVal
  | boolean : Bool → JSVal
deriving DecidableEq

/-- `parseVoiceInput` on an arbitrary value: the guard
`!text || typeof text !== 'string'` rejects every non-string (the empty
string is rejected inside `parseVoiceInput` itself). -/
def parseVoiceInputJS (v : JSVal) (now : JsDate) : Option ParsedExpense :=
  match v with
  | .str s => parseVoiceInput s now
  | _ => none

/-- `categorizeExpense` on an arbitrary value: the guard
`!description || typeof description !== 'string'` sends every non-string to
`"Other"`. -/
def categorizeExpenseJS (v : JSVal) : String :=
  match v with
  | .str s => categorizeExpense s
  | _ => "Other"

/-- A candidate record as `validateParsedExpense` receives it: field values
of arbitrary JS type. -/
structure CandidateJS where
  amount : JSVal
  description : JSVal

/-- `validateParsedExpense` from `voiceService.ts`: amount is a number in
`(0, 10000)` and description a string of length in `[1, 200)`. -/
def validateParsedExpense (e : CandidateJS) : Bool :=
  match e.amount, e.description with
  | .num a, .str d =>
    decide (0 < a) && decide (a < 10000) && decide (0 < d.length) && decide (d.length < 200)
  | _, _ => false

/-!  ## Helper lemmas  -/

theorem find?_indexOf_le {α : Type} [BEq α] [LawfulBEq α] (p : α → Bool) :
    ∀ (l : List α) (a b : α), a ∈ l → p a = true → l.find? p = some b →
      l.indexOf b ≤ l.indexOf a := by
  intro l
  induction l with
  | nil => intro a b ha _ _; cases ha
  | cons c t ih =>
    intro a b ha hpa hf
    by_cases hc : p c = true
    · rw [List.find?_cons_of_pos _ hc] at hf
      injection hf with hf
      subst hf
      rw [List.indexOf_cons]
      simp
    · rw [List.find?_cons_of_neg _ (by simp [hc])] at hf
      have hat : a ∈ t := by
        rcases List.mem_cons.mp ha with h | h
        · exact absurd (h ▸ hpa) hc
        · exact h
      have hab := ih a b hat hpa hf
      have hca : (c == a) = false := by
        rw [beq_eq_false_iff_ne]
        intro hca
        exact hc (hca ▸ hpa)
      rw [List.indexOf_cons, List.indexOf_cons, hca]
      cases hcb : c == b <;> simp <;> omega

theorem categoryMatches_false_of_no_kw {nd : Str}
    (h : ∀ p ∈ categoryKeywords, ∀ k ∈ p.2, strIncludes nd (strLower k.data) = false) :
    ∀ cat ∈ categoryOrder, categoryMatches nd cat = false := by
  have hkeys : ∀ cat ∈ categoryOrder,
      (cat, (categoryKeywords.lookup cat).getD []) ∈ categoryKeywords := by decide
  intro cat hcat
  unfold categoryMatches
  rw [List.any_eq_false]
  intro k hk
  have hkk := h _ (hkeys cat hcat) k hk
  simp [keywordMatch, hkk]

theorem categorize_mem (d : String) : categorizeExpense d ∈ categoryOrder := by
  unfold categorizeExpense
  split
  · decide
  · cases hf : categoryOrder.find? (fun cat => categoryMatches (normText d) cat) with
    | some c => exact List.mem_of_find?_eq_some hf
    | none => decide

theorem categorize_finds {d A : String} (hA : A ∈ categoryOrder)
    (hmA : categoryMatches (normText d) A = true) :
    ∃ C, categorizeExpense d = C ∧
      categoryOrder.find? (fun cat => categoryMatches (normText d) cat) = some C := by
  have hd : d ≠ "" := by
    intro hd
    subst hd
    have hfalse := (by decide : ∀ C ∈ categoryOrder, categoryMatches (normText "") C = false) A hA
    rw [hfalse] at hmA
    cases hmA
  have hs : (categoryOrder.find? (fun cat => categoryMatches (normText d) cat)).isSome := by
    rw [List.find?_isSome]
    exact ⟨A, hA, hmA⟩
  obtain ⟨C, hC⟩ := Option.isSome_iff_exists.mp hs
  refine ⟨C, ?_, hC⟩
  unfold categorizeExpense
  rw [if_neg hd, hC]

theorem mem_insertDesc {x y : String × ℕ} : ∀ {l}, y ∈ insertDesc x l ↔ y = x ∨ y ∈ l := by
  intro l
  induction l with
  | nil => simp [insertDesc]
  | cons z zs ih =>
    unfold insertDesc
    split
    · simp [List.mem_cons]
    · simp [List.mem_cons, ih]
      tauto

theorem pairwise_insertDesc {x : String × ℕ} : ∀ {l : List (String × ℕ)},
    l.Pairwise (fun a b => b.2 ≤ a.2) → (insertDesc x l).Pairwise (fun a b => b.2 ≤ a.2) := by
  intro l
  induction l with
  | nil => intro _; simp [insertDesc]
  | cons z zs ih =>
    intro h
    rw [List.pairwise_cons] at h
    obtain ⟨hz, hzs⟩ := h
    unfold insertDesc
    split
    next hlt =>
      rw [List.pairwise_cons]
      refine ⟨?_, ?_⟩
      · intro y hy
        rcases List.mem_cons.mp hy with rfl | hy'
        · omega
        · have := hz y hy'
          omega
      · rw [List.pairwise_cons]
        exact ⟨hz, hzs⟩
    next hge =>
      rw [List.pairwise_cons]
      refine ⟨?_, ih hzs⟩
      intro y hy
      rcases mem_insertDesc.mp hy with rfl | hy'
      · omega
      · exact hz y hy'

theorem pairwise_sortDesc (l : List (String × ℕ)) :
    (sortDesc l).Pairwise (fun a b => b.2 ≤ a.2) := by
  suffices h : ∀ (l acc : List (String × ℕ)), acc.Pairwise (fun a b => b.2 ≤ a.2) →
      (l.foldl (fun acc x => insertDesc x acc) acc).Pairwise (fun a b => b.2 ≤ a.2) by
    exact h l [] (by simp)
  intro l
  induction l with
  | nil =>
    intro acc h
    simpa using h
  | cons x xs ih =>
    intro acc h
    exact ih _ (pairwise_insertDesc h)

theorem mem_foldl_insertDesc : ∀ (l acc : List (String × ℕ)) (y : String × ℕ),
    (y ∈ l.foldl (fun acc x => insertDesc x acc) acc ↔ y ∈ acc ∨ y ∈ l) := by
  intro l
  induction l with
  | nil => simp
  | cons x xs ih =>
    intro acc y
    simp only [List.foldl_cons]
    rw [ih, mem_insertDesc]
    simp [List.mem_cons]
    tauto

theorem mem_sortDesc {l : List (String × ℕ)} {y : String × ℕ} :
    y ∈ sortDesc l ↔ y ∈ l := by
  unfold sortDesc
  rw [mem_foldl_insertDesc]
  simp

theorem scoreOf_eq_sum (nd : Str) (kws : List String) :
    scoreOf nd kws =
      ((kws.filter (fun k => strIncludes nd (strLower k.data))).map String.length).sum := by
  suffices h : ∀ (kws : List String) (acc : ℕ),
      kws.foldl (fun acc k => if strIncludes nd (strLower k.data) then acc + k.length else acc) acc
        = acc + ((kws.filter (fun k => strIncludes nd (strLower k.data))).map String.length).sum by
    simpa [scoreOf] using h kws 0
  intro kws
  induction kws with
  | nil => simp
  | cons k ks ih =>
    intro acc
    simp only [List.foldl_cons, List.filter_cons]
    cases hb : strIncludes nd (strLower k.data) <;> simp [hb, ih] <;> omega

theorem mem_suggestionsFor {nd : Str} {x : String × ℕ} (hx : x ∈ suggestionsFor nd) :
    x.1 ∈ categoryKeywords.map Prod.fst ∧ 0 < x.2 ∧
      x.2 = scoreOf nd ((categoryKeywords.lookup x.1).getD []) := by
  unfold suggestionsFor at hx
  rw [List.mem_filterMap] at hx
  obtain ⟨p, hp, hpx⟩ := hx
  by_cases h0 : 0 < scoreOf nd p.2
  · rw [if_pos h0] at hpx
    injection hpx with hpx
    subst hpx
    have hlk : ∀ p ∈ categoryKeywords, categoryKeywords.lookup p.1 = some p.2 := by decide
    refine ⟨List.mem_map_of_mem Prod.fst hp, h0, ?_⟩
    rw [hlk p hp]
    rfl
  · rw [if_neg h0] at hpx
    cases hpx

theorem suggest_core (s : String) (h2 : 2 ≤ s.length) :
    ∃ l : List (String × ℕ),
      getSuggestedCategories s = l.map Prod.fst ∧
      l.length ≤ 3 ∧
      l.Pairwise (fun a b => b.2 ≤ a.2) ∧
      ∀ x ∈ l, x.1 ∈ categoryKeywords.map Prod.fst ∧ 0 < x.2 ∧
        x.2 = scoreOf (strLower s.data) ((categoryKeywords.lookup x.1).getD []) := by
  refine ⟨(sortDesc (suggestionsFor (strLower s.data))).take 3, ?_, ?_, ?_, ?_⟩
  · unfold getSuggestedCategories
    rw [if_neg ?_]
    rintro (rfl | hlt)
    · simp at h2
    · omega
  · rw [List.length_take]
    exact min_le_left _ _
  · exact List.Pairwise.sublist (List.take_sublist _ _) (pairwise_sortDesc _)
  · intro x hx
    exact mem_suggestionsFor (mem_sortDesc.mp (List.take_subset _ _ hx))

/-- Claim C1: on input whose normalized form matches keywords of exactly two
categories, of which one precedes the other in the fixed priority list
(Healthcare, Transportation, Groceries, Food & Dining, Utilities,
Entertainment, Shopping, Other), `categorizeExpense` returns the
earlier-listed category; more generally it never returns the later-listed of
two matching categories; in particular
`categorizeExpense "doctor shopping trip" = "Healthcare"`. -/
theorem categorize_priority_C1 :
    (∀ d A B : String, A ∈ categoryOrder → B ∈ categoryOrder →
      categoryMatches (normText d) A = true → categoryMatches (normText d) B = true →
      categoryOrder.indexOf A < categoryOrder.indexOf B →
      (∀ C ∈ categoryOrder, categoryMatches (normText d) C = true → C = A ∨ C = B) →
      categorizeExpense d = A)
    ∧ (∀ d A B : String, A ∈ categoryOrder → B ∈ categoryOrder →
      categoryMatches (normText d) A = true → categoryMatches (normText d) B = true →
      categoryOrder.indexOf A < categoryOrder.indexOf B →
      categorizeExpense d ≠ B)
    ∧ categorizeExpense "doctor shopping trip" = "Healthcare" := by
  have hne : ∀ d A B : String, A ∈ categoryOrder →
      categoryMatches (normText d) A = true →
      categoryOrder.indexOf A < categoryOrder.indexOf B →
      categorizeExpense d ≠ B := by
    intro d A B hA hmA hlt heq
    obtain ⟨C, hCeq, hCfind⟩ := categorize_finds hA hmA
    have hCB : C = B := by rw [← hCeq, heq]
    subst hCB
    have hle := find?_indexOf_le _ categoryOrder A C hA hmA hCfind
    omega
  refine ⟨?_, ?_, ?_⟩
  · intro d A B hA hB hmA hmB hlt honly
    obtain ⟨C, hCeq, hCfind⟩ := categorize_finds hA hmA
    have hpC : categoryMatches (normText d) C = true := List.find?_some hCfind
    have hCmem : C ∈ categoryOrder := List.mem_of_find?_eq_some hCfind
    rcases honly C hCmem hpC with rfl | rfl
    · exact hCeq
    · exact absurd hCeq (hne d A C hA hmA hlt)
  · intro d A B hA _ hmA _ hlt
    exact hne d A B hA hmA hlt
  · decide

/-- Witness for C1: "doctor mall" matches exactly Healthcare (via "doctor")
and Shopping (via "mall"), and Healthcare precedes Shopping. -/
theorem categorize_priority_C1_witness : categorizeExpense "doctor mall" = "Healthcare" :=
  categorize_priority_C1.1 "doctor mall" "Healthcare" "Shopping" (by decide) (by decide)
    (by decide) (by decide) (by decide) (by decide)

/-- Claim C2: `categorizeExpense` is total: on every string it returns a
member of the fixed eight-category set, and when no keyword of any category
occurs in the normalized input it returns `"Other"`. -/
theorem categorize_total_C2 : ∀ d : String,
    categorizeExpense d ∈ categoryOrder ∧
    ((∀ p ∈ categoryKeywords, ∀ k ∈ p.2, strIncludes (normText d) (strLower k.data) = false) →
      categorizeExpense d = "Other") := by
  intro d
  refine ⟨categorize_mem d, ?_⟩
  intro h
  unfold categorizeExpense
  split
  · rfl
  · have hnone : categoryOrder.find? (fun cat => categoryMatches (normText d) cat) = none := by
      rw [List.find?_eq_none]
      intro x hx
      simp [categoryMatches_false_of_no_kw h x hx]
    rw [hnone]

/-- Witness for C2 at the spec's no-match example. -/
theorem categorize_total_C2_witness : categorizeExpense "zzz nonsense qqq" = "Other" :=
  (categorize_total_C2 "zzz nonsense qqq").2 (by decide)

/-- Claim C7 (amended): for input of length at least 2,
`getSuggestedCategories` returns at most 3 category names ordered highest
actual match-score first (each returned name's score being the summed
keyword score `scoreOf` of that category on the lowercased input); for
shorter input (including the empty string) it returns the full eight-entry
category list in table order. -/
theorem suggest_cap_C7 : ∀ s : String,
    (s.length < 2 → getSuggestedCategories s = categoryKeywords.map Prod.fst) ∧
    (2 ≤ s.length → (getSuggestedCategories s).length ≤ 3 ∧
      ∃ l : List (String × ℕ), getSuggestedCategories s = l.map Prod.fst ∧
        (∀ x ∈ l, x.2 = scoreOf (strLower s.data) ((categoryKeywords.lookup x.1).getD [])) ∧
        l.Pairwise (fun a b => b.2 ≤ a.2)) := by
  intro s
  constructor
  · intro h
    unfold getSuggestedCategories
    rw [if_pos (Or.inr h)]
  · intro h2
    obtain ⟨l, h1, h3, h4, h5⟩ := suggest_core s h2
    refine ⟨?_, l, h1, ?_, h4⟩
    · rw [h1, List.length_map]
      exact h3
    · intro x hx
      exact (h5 x hx).2.2

/-- Counterexample for C7 as stated: on the one-character input `"a"` the
function returns all eight categories, not at most 3. -/
theorem suggest_cap_C7_counterexample : ¬ ((getSuggestedCategories "a").length ≤ 3) := by
  decide

/-- Witness for C7 (amended). -/
theorem suggest_cap_C7_witness : (getSuggestedCategories "pharmacy").length ≤ 3 :=
  ((suggest_cap_C7 "pharmacy").2 (by decide)).1

/-- Claim C8: for input of length at least 2, `getSuggestedCategories`
scores each category by the summed lengths of its matching keywords,
excludes zero scores, sorts descending and truncates to 3; every returned
name is a table category. The example input returns the three categories
with scores 8, 8 and 6. -/
theorem suggest_scoring_C8 :
    (∀ s : String, 2 ≤ s.length →
      ∃ l : List (String × ℕ),
        getSuggestedCategories s = l.map Prod.fst ∧
        l.length ≤ 3 ∧
        l.Pairwise (fun a b => b.2 ≤ a.2) ∧
        ∀ x ∈ l, x.1 ∈ categoryKeywords.map Prod.fst ∧ 0 < x.2 ∧
          x.2 = ((((categoryKeywords.lookup x.1).getD []).filter
            (fun k => strIncludes (strLower s.data) (strLower k.data))).map String.length).sum)
    ∧ getSuggestedCategories "coffee shopping bill" = ["Groceries", "Shopping", "Food & Dining"] := by
  constructor
  · intro s h2
    obtain ⟨l, h1, h3, h4, h5⟩ := suggest_core s h2
    refine ⟨l, h1, h3, h4, ?_⟩
    intro x hx
    obtain ⟨ha, hb, hc⟩ := h5 x hx
    exact ⟨ha, hb, by rw [hc, scoreOf_eq_sum]⟩
  · decide

/-- Witness for C8 at the spec's example input. -/
theorem suggest_scoring_C8_witness : (getSuggestedCategories "coffee shopping bill").length ≤ 3 := by
  obtain ⟨l, hl, h3, _, _⟩ := suggest_scoring_C8.1 "coffee shopping bill" (by decide)
  rw [hl, List.length_map]
  exact h3

/-!  ## Character lemmas for the capitalization invariant  -/

theorem char_toNat_ofNat_valid {n : ℕ} (h : n.isValidChar) : (Char.ofNat n).toNat = n := by
  rw [Char.ofNat, dif_pos h]
  rfl

theorem uint32_le_iff (a b : UInt32) : a ≤ b ↔ a.toNat ≤ b.toNat := by
  simp [UInt32.le_def, BitVec.le_def]
  rfl

theorem isLower_iff (c : Char) : c.isLower = true ↔ 97 ≤ c.toNat ∧ c.toNat ≤ 122 := by
  have h97 : ((97 : UInt32)).toNat = 97 := rfl
  have h122 : ((122 : UInt32)).toNat = 122 := rfl
  simp only [Char.isLower, Bool.and_eq_true, decide_eq_true_eq, ge_iff_le,
    uint32_le_iff, h97, h122]
  exact Iff.rfl

theorem toUpper_isLower_false (c : Char) : c.toUpper.isLower = false := by
  unfold Char.toUpper
  by_cases h : c.toNat ≥ 97 ∧ c.toNat ≤ 122
  · rw [if_pos h]
    have hv : Nat.isValidChar (c.toNat - 32) := Or.inl (by omega)
    have hval : (Char.ofNat (c.toNat - 32)).toNat = c.toNat - 32 := char_toNat_ofNat_valid hv
    rw [Bool.eq_false_iff]
    intro habs
    have := (isLower_iff _).mp habs
    rw [hval] at this
    omega
  · rw [if_neg h]
    rw [Bool.eq_false_iff]
    intro habs
    have := (isLower_iff _).mp habs
    exact h ⟨this.1, this.2⟩

theorem toUpper_eq_self_of_not_lower {c : Char} (h : c.isLower = false) : c.toUpper = c := by
  unfold Char.toUpper
  rw [if_neg]
  intro hc
  rw [(isLower_iff c).mpr ⟨hc.1, hc.2⟩] at h
  cases h

theorem toUpper_toUpper (c : Char) : c.toUpper.toUpper = c.toUpper :=
  toUpper_eq_self_of_not_lower (toUpper_isLower_false c)

/-!  ## Parser helper lemmas  -/

theorem parseVoiceInput_some {text : String} {now : JsDate} {r : ParsedExpense}
    (h : parseVoiceInput text now = some r) :
    ∃ a, extractAmount (normText text) = some a ∧
      r = ⟨a, ⟨capitalize (descWithFallback text.data)⟩,
           some (inferDate (normText text) now)⟩ := by
  unfold parseVoiceInput at h
  by_cases ht : text = ""
  · rw [if_pos ht] at h
    cases h
  · rw [if_neg ht] at h
    cases ha : extractAmount (normText text) with
    | none =>
      rw [ha] at h
      cases h
    | some a =>
      rw [ha] at h
      injection h with h
      exact ⟨a, rfl, h.symm⟩

theorem posVal_pos {re : RE} {t : Str} {v : ℚ} (h : posVal re t = some v) : 0 < v := by
  unfold posVal at h
  split at h
  · split at h
    next h0 =>
      injection h with h
      rw [← h]
      exact h0
    next => exact Option.noConfusion h
  · exact Option.noConfusion h
  · exact Option.noConfusion h

theorem extractAmount_pos {t : Str} {v : ℚ} (h : extractAmount t = some v) : 0 < v := by
  obtain ⟨re, _, hre⟩ := List.exists_of_findSome?_eq_some h
  exact posVal_pos hre

theorem descWithFallback_len (t : Str) : 2 ≤ (descWithFallback t).length := by
  unfold descWithFallback
  split
  · split
    · decide
    next h => omega
  next h => omega

theorem capitalize_length (s : Str) : (capitalize s).length = s.length := by
  cases s <;> rfl

theorem string_mk_length (l : Str) : (String.mk l).length = l.length := rfl

theorem string_mk_data (l : Str) : (String.mk l).data = l := rfl

/-!  ## Voice-parser claims  -/

/-- Claim C3: when no amount pattern yields a strictly positive value on the
normalized input, `parseVoiceInput` returns `none` (no partial output); and
the patterns are tried in their fixed order, the first one whose first match
has a strictly positive value determining the amount. -/
theorem parse_failure_C3 :
    (∀ (s : String) (now : JsDate),
      (∀ re ∈ amountPatterns, posVal re (normText s) = none) →
      parseVoiceInput s now = none)
    ∧ (∀ (s : String) (now : JsDate) (i : ℕ) (hi : i < amountPatterns.length) (v : ℚ),
      (∀ (j : ℕ) (hj : j < i),
        posVal (amountPatterns.get ⟨j, Nat.lt_trans hj hi⟩) (normText s) = none) →
      posVal (amountPatterns.get ⟨i, hi⟩) (normText s) = some v →
      s ≠ "" →
      ∃ r, parseVoiceInput s now = some r ∧ r.amount = v) := by
  constructor
  · intro s now h
    unfold parseVoiceInput
    split
    · rfl
    · have hnone : extractAmount (normText s) = none := by
        unfold extractAmount
        rw [List.findSome?_eq_none_iff]
        exact h
      rw [hnone]
  · intro s now i hi v hj hv hs
    have hi4 : i < 4 := by simpa [amountPatterns] using hi
    have hex : extractAmount (normText s) = some v := by
      interval_cases i
      · have h0 : posVal amountPattern1 (normText s) = some v := hv
        simp [extractAmount, amountPatterns, List.findSome?_cons, h0]
      · have h0 : posVal amountPattern1 (normText s) = none := hj 0 (by omega)
        have h1 : posVal amountPattern2 (normText s) = some v := hv
        simp [extractAmount, amountPatterns, List.findSome?_cons, h0, h1]
      · have h0 : posVal amountPattern1 (normText s) = none := hj 0 (by omega)
        have h1 : posVal amountPattern2 (normText s) = none := hj 1 (by omega)
        have h2 : posVal amountPattern3 (normText s) = some v := hv
        simp [extractAmount, amountPatterns, List.findSome?_cons, h0, h1, h2]
      · have h0 : posVal amountPattern1 (normText s) = none := hj 0 (by omega)
        have h1 : posVal amountPattern2 (normText s) = none := hj 1 (by omega)
        have h2 : posVal amountPattern3 (normText s) = none := hj 2 (by omega)
        have h3 : posVal amountPattern4 (normText s) = some v := hv
        simp [extractAmount, amountPatterns, List.findSome?_cons, h0, h1, h2, h3]
    refine ⟨⟨v, ⟨capitalize (descWithFallback s.data)⟩,
             some (inferDate (normText s) now)⟩, ?_, rfl⟩
    unfold parseVoiceInput
    rw [if_neg hs, hex]

/-- Witness for C3: on `"$5 lunch"` pattern 1 fails, pattern 2 wins with 5. -/
theorem parse_failure_C3_witness :
    ∃ r, parseVoiceInput "$5 lunch" ⟨0, 0⟩ = some r ∧ r.amount = 5 := by
  have hi : (1 : ℕ) < amountPatterns.length := by decide
  have hp1 : posVal amountPattern1 (normText "$5 lunch") = none := by decide
  have hp2 : posVal amountPattern2 (normText "$5 lunch") = some 5 := by decide
  have hj : ∀ (j : ℕ) (hjlt : j < 1),
      posVal (amountPatterns.get ⟨j, Nat.lt_trans hjlt hi⟩) (normText "$5 lunch") = none := by
    intro j hjlt
    interval_cases j
    exact hp1
  exact parse_failure_C3.2 "$5 lunch" ⟨0, 0⟩ 1 hi 5 hj hp2 (by decide)

/-- Claim C5: the spec's canonical example utterance parses to amount 25, a
description `"Coffee ths mornng"` that starts with `"Coffee"` and contains
none of "spent", "dollars" or "this morning", and a date whose clock time is
09:00:00.000. -/
theorem parse_example_C5 : ∀ now : JsDate,
    ∃ r, parseVoiceInput "Spent 25 dollars on coffee this morning" now = some r ∧
      r.amount = 25 ∧
      r.description = "Coffee ths mornng" ∧
      r.description.data.take 6 = "Coffee".data ∧
      strIncludes (strLower r.description.data) (strLower "spent".data) = false ∧
      strIncludes (strLower r.description.data) (strLower "dollars".data) = false ∧
      strIncludes (strLower r.description.data) (strLower "this morning".data) = false ∧
      r.date = some (setClock now 9) := by
  intro now
  have hx : extractAmount (normText "Spent 25 dollars on coffee this morning") = some 25 := by
    decide
  have hd : (⟨capitalize (descWithFallback
      ("Spent 25 dollars on coffee this morning").data)⟩ : String) = "Coffee ths mornng" := by
    decide
  have hy : strIncludes (normText "Spent 25 dollars on coffee this morning")
      "yesterday".data = false := by decide
  have hm : strIncludes (normText "Spent 25 dollars on coffee this morning")
      "this morning".data = true := by decide
  have hdate : inferDate (normText "Spent 25 dollars on coffee this morning") now
      = setClock now 9 := by
    simp [inferDate, hy, hm]
  refine ⟨⟨25, "Coffee ths mornng", some (setClock now 9)⟩, ?_, rfl, rfl,
    (by decide : ("Coffee ths mornng" : String).data.take 6 = "Coffee".data),
    (by decide : strIncludes (strLower ("Coffee ths mornng" : String).data)
      (strLower "spent".data) = false),
    (by decide : strIncludes (strLower ("Coffee ths mornng" : String).data)
      (strLower "dollars".data) = false),
    (by decide : strIncludes (strLower ("Coffee ths mornng" : String).data)
      (strLower "this morning".data) = false),
    rfl⟩
  have heq : parseVoiceInput "Spent 25 dollars on coffee this morning" now =
      some ⟨25, ⟨capitalize (descWithFallback
            ("Spent 25 dollars on coffee this morning").data)⟩,
        some (inferDate (normText "Spent 25 dollars on coffee this morning") now)⟩ := by
    unfold parseVoiceInput
    rw [if_neg (by decide), hx]
  rw [heq, hd, hdate]

/-- Witness for C5, instantiating now = day 0, midnight. -/
theorem parse_example_C5_witness :
    ∃ r, parseVoiceInput "Spent 25 dollars on coffee this morning" ⟨0, 0⟩ = some r ∧
      r.amount = 25 ∧
      r.description = "Coffee ths mornng" ∧
      r.description.data.take 6 = "Coffee".data ∧
      strIncludes (strLower r.description.data) (strLower "spent".data) = false ∧
      strIncludes (strLower r.description.data) (strLower "dollars".data) = false ∧
      strIncludes (strLower r.description.data) (strLower "this morning".data) = false ∧
      r.date = some (setClock ⟨0, 0⟩ 9) :=
  parse_example_C5 ⟨0, 0⟩

/-- Claim C6: whenever the normalized input contains "yesterday", a
successful parse dates the expense exactly 24 hours before "now" with the
same clock time, and this wins over any time-of-day phrase; the spec's
example yields amount 30 and date now − 24h. -/
theorem parse_yesterday_C6 :
    (∀ (s : String) (now : JsDate) (r : ParsedExpense),
      strIncludes (normText s) "yesterday".data = true →
      parseVoiceInput s now = some r →
      r.date = some (sub24h now))
    ∧ (∀ now : JsDate,
      ∃ r, parseVoiceInput "Paid $30 for gas yesterday" now = some r ∧
        r.amount = 30 ∧ r.date = some (sub24h now)) := by
  constructor
  · intro s now r hy hp
    obtain ⟨a, _, hr⟩ := parseVoiceInput_some hp
    subst hr
    show some (inferDate (normText s) now) = some (sub24h now)
    simp [inferDate, hy]
  · intro now
    have hx : extractAmount (normText "Paid $30 for gas yesterday") = some 30 := by decide
    have hd : (⟨capitalize (descWithFallback
        ("Paid $30 for gas yesterday").data)⟩ : String) = "Gas" := by decide
    have hy : strIncludes (normText "Paid $30 for gas yesterday")
        "yesterday".data = true := by decide
    have hdate : inferDate (normText "Paid $30 for gas yesterday") now = sub24h now := by
      simp [inferDate, hy]
    refine ⟨⟨30, "Gas", some (sub24h now)⟩, ?_, rfl, rfl⟩
    have heq : parseVoiceInput "Paid $30 for gas yesterday" now =
        some ⟨30, ⟨capitalize (descWithFallback ("Paid $30 for gas yesterday").data)⟩,
          some (inferDate (normText "Paid $30 for gas yesterday") now)⟩ := by
      unfold parseVoiceInput
      rw [if_neg (by decide), hx]
    rw [heq, hd, hdate]

/-- Witness for C6, instantiating the yesterday rule on the spec's example
with now = day 0, midnight. -/
theorem parse_yesterday_C6_witness :
    (⟨30, "Gas", some (sub24h ⟨0, 0⟩)⟩ : ParsedExpense).date = some (sub24h ⟨0, 0⟩) :=
  parse_yesterday_C6.1 "Paid $30 for gas yesterday" ⟨0, 0⟩
    ⟨30, "Gas", some (sub24h ⟨0, 0⟩)⟩ (by decide) (by decide)

/-- Claim C9: null, undefined and non-string inputs are rejected
defensively: the parser returns its failure sentinel and the categorizer
returns "Other"; neither throws. -/
theorem malformed_C9 : ∀ (v : JSVal) (now : JsDate),
    (∀ s : String, v ≠ JSVal.str s) →
    parseVoiceInputJS v now = none ∧ categorizeExpenseJS v = "Other" := by
  intro v now h
  cases v with
  | str s => exact absurd rfl (h s)
  | jsNull => exact ⟨rfl, rfl⟩
  | jsUndef => exact ⟨rfl, rfl⟩
  | num q => exact ⟨rfl, rfl⟩
  | boolean b => exact ⟨rfl, rfl⟩

/-- Witness for C9 at `null`. -/
theorem malformed_C9_witness :
    parseVoiceInputJS JSVal.jsNull ⟨0, 0⟩ = none ∧
    categorizeExpenseJS JSVal.jsNull = "Other" :=
  malformed_C9 JSVal.jsNull ⟨0, 0⟩ (fun s h => JSVal.noConfusion h)

/-- Claim C10: every successful parse has a strictly positive amount, a
description of length at least 2 whose first character is uppercased (with
literal fallback `"Expense"` when both stripping stages leave fewer than 2
characters), and a date that is always present even though the record type
declares it optional. -/
theorem parse_invariants_C10 : ∀ (s : String) (now : JsDate) (r : ParsedExpense),
    parseVoiceInput s now = some r →
    0 < r.amount ∧
    2 ≤ r.description.length ∧
    (∃ c cs, r.description.data = c :: cs ∧ c.toUpper = c ∧ c.isLower = false) ∧
    ((stripDescription s.data).length < 2 → (fallbackWords s.data).length < 2 →
      r.description = "Expense") ∧
    r.date.isSome = true := by
  intro s now r hp
  obtain ⟨a, ha, hr⟩ := parseVoiceInput_some hp
  have hamount : r.amount = a := by rw [hr]
  have hdesc : r.description = ⟨capitalize (descWithFallback s.data)⟩ := by rw [hr]
  have hdate : r.date = some (inferDate (normText s) now) := by rw [hr]
  refine ⟨?_, ?_, ?_, ?_, ?_⟩
  · rw [hamount]
    exact extractAmount_pos ha
  · rw [hdesc, string_mk_length, capitalize_length]
    exact descWithFallback_len s.data
  · rw [hdesc, string_mk_data]
    have h1 := descWithFallback_len s.data
    cases hdd : descWithFallback s.data with
    | nil =>
      rw [hdd] at h1
      simp at h1
    | cons c cs =>
      exact ⟨c.toUpper, cs, rfl, toUpper_toUpper c, toUpper_isLower_false c⟩
  · intro h1 h2
    have hexp : descWithFallback s.data = "Expense".data := by
      unfold descWithFallback
      rw [if_pos h1, if_pos h2]
    rw [hdesc, hexp]
    decide
  · rw [hdate]
    rfl

/-- Witness for C10 on a successful concrete parse. -/
theorem parse_invariants_C10_witness :
    0 < (ParsedExpense.mk 15 "Lunch" (some ⟨0, 0⟩)).amount ∧
    2 ≤ (ParsedExpense.mk 15 "Lunch" (some ⟨0, 0⟩)).description.length ∧
    (∃ c cs, (ParsedExpense.mk 15 "Lunch" (some ⟨0, 0⟩)).description.data = c :: cs ∧
      c.toUpper = c ∧ c.isLower = false) ∧
    ((stripDescription ("Bought lunch for 15 bucks" : String).data).length < 2 →
      (fallbackWords ("Bought lunch for 15 bucks" : String).data).length < 2 →
      (ParsedExpense.mk 15 "Lunch" (some ⟨0, 0⟩)).description = "Expense") ∧
    (ParsedExpense.mk 15 "Lunch" (some ⟨0, 0⟩)).date.isSome = true :=
  parse_invariants_C10 "Bought lunch for 15 bucks" ⟨0, 0⟩
    ⟨15, "Lunch", some ⟨0, 0⟩⟩ (by decide)

/-- Claim C4: `validateParsedExpense` accepts exactly the candidates whose
amount is a number in the open interval (0, 10000) and whose description is
a string of length in `[1, 200)`; in particular amount 10000 is rejected and
9999.99 accepted. -/
theorem validate_iff_C4 :
    (∀ e : CandidateJS, validateParsedExpense e = true ↔
      ((∃ a : ℚ, e.amount = JSVal.num a ∧ 0 < a ∧ a < 10000) ∧
       (∃ d : String, e.description = JSVal.str d ∧ 1 ≤ d.length ∧ d.length < 200)))
    ∧ validateParsedExpense ⟨JSVal.num 10000, JSVal.str "x"⟩ = false
    ∧ validateParsedExpense ⟨JSVal.num (9999.99 : ℚ), JSVal.str "x"⟩ = true := by
  refine ⟨?_, by decide, ?_⟩
  · intro e
    obtain ⟨ea, ed⟩ := e
    cases ea <;> cases ed <;>
      simp [validateParsedExpense, Bool.and_eq_true, decide_eq_true_eq] <;>
      try tauto
  · simp only [validateParsedExpense, Bool.and_eq_true, decide_eq_true_eq]
    exact ⟨⟨⟨by norm_num, by norm_num⟩, by decide⟩, by decide⟩

/-- Witness for C4 on an accepted candidate. -/
theorem validate_iff_C4_witness :
    validateParsedExpense ⟨JSVal.num 5, JSVal.str "x"⟩ = true :=
  (validate_iff_C4.1 ⟨JSVal.num 5, JSVal.str "x"⟩).mpr
    ⟨⟨5, rfl, by norm_num, by norm_num⟩, ⟨"x", rfl, by decide, by decide⟩⟩

end VoiceExpense
